import Mathlib

/-!
Shallow embedding of src/youtube_transcript_extractor.py.

The program is a linear pipeline: parse a video id from a URL, try official
captions (with a priority policy over the available caption tracks and an
interactive prompt as last resort), fall back to audio download plus Whisper
transcription, and persist the non-empty transcript to output/<id>.txt.

Python strings are modelled as Lean `String` (ASCII fragment: `str.strip`,
`str.isdigit`, `int(...)`, `str.lstrip`, `str.startswith` are modelled over
their ASCII behaviour, which coincides with Python on the inputs the program
meets). External collaborators (captions service, yt-dlp, Whisper, stdin)
are passed in as explicit data: a service outcome, a fetch function, a list
of operator input lines, a download outcome, a speech-to-text outcome.
Fallible calls return `Except`; the filesystem is an association list from
path to content; temporary directories are tracked in an explicit state.
-/

/-- Model of Python str.strip() with no argument: drop whitespace from both
ends of the character list. -/
def pyStripChars (l : List Char) : List Char :=
  ((l.dropWhile Char.isWhitespace).reverse.dropWhile Char.isWhitespace).reverse

/-- Model of Python str.strip() on strings. -/
def pyStrip (s : String) : String := ⟨pyStripChars s.data⟩

/-- Model of Python str.isdigit(): nonempty and every character a digit. -/
def pyIsDigit (s : String) : Bool := !s.data.isEmpty && s.data.all Char.isDigit

/-- Model of Python int(...) on a digit string: decimal value. -/
def pyInt (s : String) : Nat :=
  s.data.foldl (fun n c => n * 10 + (c.toNat - 48)) 0

/-- Model of Python str.lstrip on the slash character, as used on the
path of a youtu.be URL: drop every leading slash. -/
def pyLStripSlash (s : String) : String := ⟨s.data.dropWhile (fun c => c = '/')⟩

/-- Model of Python str.startswith. -/
def pyStartsWith (s p : String) : Bool := p.data.isPrefixOf s.data

/-- One available caption track, as handed to the selector: display
language, language code, auto-generated flag (fields language,
language_code, is_generated of the captions API track object). -/
structure CaptionTrack where
  language : String
  language_code : String
  is_generated : Bool
deriving DecidableEq, Repr

/-- The manual-English test of the first selection loop:
t.language_code.startswith("en") and not t.is_generated. -/
def isManualEnglish (t : CaptionTrack) : Bool :=
  pyStartsWith t.language_code "en" && !t.is_generated

/-- The English test of the second selection loop:
t.language_code.startswith("en"). -/
def isEnglish (t : CaptionTrack) : Bool := pyStartsWith t.language_code "en"

/-- The two deterministic selection loops plus the single-track shortcut of
_get_official_captions (the code before the interactive prompt). -/
def deterministicSelect (available : List CaptionTrack) : Option CaptionTrack :=
  match available.find? isManualEnglish with
  | some t => some t
  | none =>
    match available.find? isEnglish with
    | some t => some t
    | none => if available.length = 1 then available[0]? else none

/-- The guard of the interactive while-loop:
choice.isdigit() and 1 <= int(choice) <= len(available), where choice is
the stripped input line. -/
def validChoice (available : List CaptionTrack) (raw : String) : Bool :=
  let choice := pyStrip raw
  pyIsDigit choice && decide (1 ≤ pyInt choice ∧ pyInt choice ≤ available.length)

/-- The interactive while-loop of _get_official_captions, run against a
list of operator input lines; the second component counts the prompts that
were issued. Running out of modelled input lines stands for blocking
forever, hence the Option. -/
def promptLoop (available : List CaptionTrack) :
    List String → Nat → Option (CaptionTrack × Nat)
  | [], _ => none
  | raw :: rest, n =>
    if validChoice available raw then
      (available[pyInt (pyStrip raw) - 1]?).map (fun t => (t, n + 1))
    else promptLoop available rest (n + 1)

/-- Outcome of the selection logic of _get_official_captions: empty list
(return None before selecting), a chosen track together with how many
interactive prompts were issued, or blocked forever on the prompt. -/
inductive SelOutcome where
  | noTracks
  | chosen (t : CaptionTrack) (prompts : Nat)
  | blocked
deriving DecidableEq, Repr

/-- The selection portion of _get_official_captions: empty check, the two
English loops, the single-track shortcut, then the interactive prompt. -/
def selectTrack (available : List CaptionTrack) (inputs : List String) : SelOutcome :=
  if available.isEmpty then .noTracks
  else
    match deterministicSelect available with
    | some t => .chosen t 0
    | none =>
      match promptLoop available inputs 0 with
      | some (t, n) => .chosen t n
      | none => .blocked

/-- One timed entry of a fetched transcript; only the text field is ever
read by the program. -/
structure TimedEntry where
  text : String
deriving DecidableEq, Repr

/-- What the captions service call list_transcripts produced: a track list,
or one of the two named exceptions, or any other exception. -/
inductive CaptionsOutcome where
  | tracks (ts : List CaptionTrack)
  | transcriptsDisabled
  | noTranscriptFound
  | otherError
deriving DecidableEq, Repr

/-- Result of _get_official_captions: a returned value (None or a
transcript string), or blocked forever on the interactive prompt. -/
inductive CapResult where
  | ret (r : Option String)
  | blocked
deriving DecidableEq, Repr

/-- _get_official_captions: the try-block downgrades TranscriptsDisabled,
NoTranscriptFound and every other exception (including a failing
selected.fetch()) to None; an empty track list returns None; otherwise the
selection logic runs and the fetched entries are joined by
" ".join(entry.text for entry in data). -/
def get_official_captions (outcome : CaptionsOutcome)
    (fetch : CaptionTrack → Except Unit (List TimedEntry))
    (inputs : List String) : CapResult :=
  match outcome with
  | .transcriptsDisabled => .ret none
  | .noTranscriptFound => .ret none
  | .otherError => .ret none
  | .tracks ts =>
    match selectTrack ts inputs with
    | .noTracks => .ret none
    | .blocked => .blocked
    | .chosen t _ =>
      match fetch t with
      | .error _ => .ret none
      | .ok entries => .ret (some (String.intercalate " " (entries.map TimedEntry.text)))

/-- Python truthiness of the Optional[str] returned by
_get_official_captions: None and the empty string are falsy. -/
def pyTruthyOpt : Option String → Bool
  | none => false
  | some s => decide (s ≠ "")

/-- Result of extract_text: a transcript string, blocked on the prompt, or
an exception propagating out (from the fallback path). -/
inductive PipeResult where
  | text (s : String)
  | blocked
  | raised
deriving DecidableEq, Repr

/-- extract_text: return the captions transcript when truthy, else run the
Whisper fallback, whose failure propagates. -/
def extract_text (captions : CapResult) (fallback : Except Unit String) : PipeResult :=
  match captions with
  | .blocked => .blocked
  | .ret transcript =>
    if pyTruthyOpt transcript then .text (transcript.getD "")
    else
      match fallback with
      | .ok s => .text s
      | .error _ => .raised

/-- One Whisper speech-to-text segment; only the text field is read. -/
structure Segment where
  text : String
deriving DecidableEq, Repr

/-- The flattening inside _transcribe_via_whisper: start from the empty
string, append segment.text + " " for each segment, then strip(). -/
def flattenSegments (segments : List Segment) : String :=
  pyStrip (segments.foldl (fun acc seg => acc ++ seg.text ++ " ") "")

/-- A URL after urllib.parse.urlparse, restricted to the fields the
program reads: hostname (None when absent), path, and the query as an
ordered list of key-value pairs. -/
structure ParsedUrl where
  hostname : Option String
  path : String
  query : List (String × String)
deriving DecidableEq, Repr

/-- parse_qs(query).get("v", [None])[0]: parse_qs drops pairs with an
empty value, so this is the first nonempty value bound to key v, if any. -/
def parse_qs_v (query : List (String × String)) : Option String :=
  ((query.filter (fun p => p.1 = "v" ∧ p.2 ≠ "")).map Prod.snd).head?

/-- _extract_video_id: watch URLs read the v query parameter, short URLs
strip leading slashes from the path, anything else is rejected; a missing
or empty identifier on a recognized host is rejected too. -/
def extract_video_id (u : ParsedUrl) : Except String String :=
  if u.hostname = some "www.youtube.com" ∨ u.hostname = some "youtube.com" then
    let video_id := parse_qs_v u.query
    if pyTruthyOpt video_id then .ok (video_id.getD "")
    else .error "Could not extract video ID from watch URL"
  else if u.hostname = some "youtu.be" then
    let video_id := pyLStripSlash u.path
    if video_id = "" then .error "Could not extract video ID from short URL"
    else .ok video_id
  else .error "Invalid YouTube URL format"

/-- The filesystem fragment the program writes: association list from path
to file content, first binding wins. -/
def fsWrite : List (String × String) → String → String → List (String × String)
  | [], path, content => [(path, content)]
  | (p, c) :: rest, path, content =>
    if p = path then (path, content) :: rest else (p, c) :: fsWrite rest path content

/-- Look a path up in the modelled filesystem. -/
def fsRead (fs : List (String × String)) (path : String) : Option String :=
  (fs.find? (fun e => e.1 = path)).map Prod.snd

/-- The output path of save_to_file: os.path.join("output", video_id + ".txt"). -/
def outputPath (video_id : String) : String := "output/" ++ video_id ++ ".txt"

/-- save_to_file: open(file_path, "w") truncates, so the write replaces
any previous content for the same path (directory creation not modelled). -/
def save_to_file (fs : List (String × String)) (video_id text : String) :
    List (String × String) :=
  fsWrite fs (outputPath video_id) text

/-- Outcome of the __main__ block after extract_text returned: exit 0 with
the filesystem after persisting, or exit 1 with the filesystem untouched,
or stuck on the interactive prompt. -/
inductive RunOutcome where
  | exitSuccess (fs : List (String × String))
  | exitFailure (fs : List (String × String))
  | stuck
deriving DecidableEq, Repr

/-- The tail of __main__: a raised exception exits with code 1; an empty
transcript raises ValueError (caught by the top-level handler, exit 1)
before save_to_file runs; otherwise save_to_file persists the text. -/
def mainRun (fs : List (String × String)) (video_id : String) (res : PipeResult) :
    RunOutcome :=
  match res with
  | .blocked => .stuck
  | .raised => .exitFailure fs
  | .text t => if t = "" then .exitFailure fs else .exitSuccess (save_to_file fs video_id t)

/-- Temporary-directory state around the fallback path: the list of
allocated temp directories (by id) and the id the next mkdtemp returns. -/
structure TempFs where
  allocated : List Nat
  counter : Nat
deriving DecidableEq, Repr

/-- What the yt-dlp download did: produced audio.mp3, raised inside
download, or finished without the expected file (FileNotFoundError). -/
inductive DownloadOutcome where
  | ok
  | raiseInDownload
  | missingFile
deriving DecidableEq, Repr

/-- _download_audio: tempfile.mkdtemp() allocates a fresh directory, then
the download either yields <dir>/audio.mp3 or fails; the directory stays
allocated in every case (the code never removes it). -/
def download_audio (st : TempFs) (dl : DownloadOutcome) : TempFs × Except Unit String :=
  let temp_dir := st.counter
  let st1 : TempFs := ⟨st.allocated ++ [temp_dir], st.counter + 1⟩
  match dl with
  | .ok => (st1, .ok (toString temp_dir ++ "/audio.mp3"))
  | .raiseInDownload => (st1, .error ())
  | .missingFile => (st1, .error ())

/-- _transcribe_via_whisper: download, then run speech-to-text on the
audio file and flatten the segments; no branch frees the temp directory. -/
def transcribe_via_whisper (st : TempFs) (dl : DownloadOutcome)
    (stt : Except Unit (List Segment)) : TempFs × Except Unit String :=
  match download_audio st dl with
  | (st1, .error e) => (st1, .error e)
  | (st1, .ok _) =>
    match stt with
    | .error e => (st1, .error e)
    | .ok segments => (st1, .ok (flattenSegments segments))

/-! ### Helper lemmas -/

theorem find?_of_first {α : Type} (p : α → Bool) :
    ∀ (l : List α) (i : Nat) (h : i < l.length),
      p (l.get ⟨i, h⟩) = true →
      (∀ j (hj : j < i), p (l.get ⟨j, hj.trans h⟩) = false) →
      l.find? p = some (l.get ⟨i, h⟩)
  | [], i, h, _, _ => by simp at h
  | a :: l, 0, h, hp, _ => by
    rw [List.find?_cons_of_pos _ (by simpa using hp)]
    rfl
  | a :: l, i + 1, h, hp, hearly => by
    have ha : p a = false := by simpa using hearly 0 (Nat.succ_pos i)
    have ih := find?_of_first p l i (Nat.lt_of_succ_lt_succ h)
      (by simpa using hp)
      (fun j hj => by simpa using hearly (j + 1) (Nat.succ_lt_succ hj))
    rw [List.find?_cons_of_neg _ (by simp [ha]), ih]
    rfl

theorem isManualEnglish_eq_false_of_isEnglish_eq_false {t : CaptionTrack}
    (h : isEnglish t = false) : isManualEnglish t = false := by
  simp only [isManualEnglish, isEnglish] at *
  simp [h]

/-! ### C1 -/

/-- C1: Caption Selector priority order. If index i is the first position
of a manual English track, the selector returns that track with no prompt;
if no manual English track exists and i is the first position of an
English track, the selector returns that track with no prompt; if no
English track exists at all and the list has exactly one track, the
selector returns it with no prompt. (The index hypothesis makes the list
nonempty.) -/
theorem c1_selector_priority (available : List CaptionTrack) (inputs : List String)
    (i : Nat) (h : i < available.length) :
    (isManualEnglish (available.get ⟨i, h⟩) = true →
      (∀ j (hj : j < i), isManualEnglish (available.get ⟨j, hj.trans h⟩) = false) →
      selectTrack available inputs = .chosen (available.get ⟨i, h⟩) 0)
    ∧ ((∀ t ∈ available, isManualEnglish t = false) →
      isEnglish (available.get ⟨i, h⟩) = true →
      (∀ j (hj : j < i), isEnglish (available.get ⟨j, hj.trans h⟩) = false) →
      selectTrack available inputs = .chosen (available.get ⟨i, h⟩) 0)
    ∧ ((∀ t ∈ available, isEnglish t = false) → available.length = 1 →
      ∀ t, available[0]? = some t →
      selectTrack available inputs = .chosen t 0) := by
  have hne : available.isEmpty = false := by
    cases available with
    | nil => simp at h
    | cons a l => simp
  refine ⟨?_, ?_, ?_⟩
  · intro hp hearly
    have hfind := find?_of_first isManualEnglish available i h hp hearly
    simp [selectTrack, hne, deterministicSelect, hfind]
  · intro hall hp hearly
    have hM : available.find? isManualEnglish = none :=
      List.find?_eq_none.mpr (fun x hx => by simp [hall x hx])
    have hE := find?_of_first isEnglish available i h hp hearly
    simp [selectTrack, hne, deterministicSelect, hM, hE]
  · intro hall h1 t ht
    have hM : available.find? isManualEnglish = none :=
      List.find?_eq_none.mpr
        (fun x hx => by simp [isManualEnglish_eq_false_of_isEnglish_eq_false (hall x hx)])
    have hE : available.find? isEnglish = none :=
      List.find?_eq_none.mpr (fun x hx => by simp [hall x hx])
    simp [selectTrack, hne, deterministicSelect, hM, hE, h1, ht]

/-- Concrete run of c1_selector_priority: a manual en-US track after a
French track and an auto-generated English track is chosen with no
prompt, whatever the operator would have typed. -/
theorem c1_selector_priority_witness :
    selectTrack [⟨"French", "fr", false⟩, ⟨"English", "en", true⟩,
        ⟨"EnglishUS", "en-US", false⟩] ["junk"]
      = .chosen ⟨"EnglishUS", "en-US", false⟩ 0 :=
  (c1_selector_priority [⟨"French", "fr", false⟩, ⟨"English", "en", true⟩,
      ⟨"EnglishUS", "en-US", false⟩] ["junk"] 2 (by decide)).1 (by decide) (by decide)

/-! ### C3 -/

theorem promptLoop_append (available : List CaptionTrack) (good : String)
    (rest : List String) (hgood : validChoice available good = true) :
    ∀ (bad : List String) (n : Nat), (∀ s ∈ bad, validChoice available s = false) →
      promptLoop available (bad ++ good :: rest) n
        = (available[pyInt (pyStrip good) - 1]?).map (fun t => (t, n + bad.length + 1)) := by
  intro bad
  induction bad with
  | nil =>
    intro n _
    simp [promptLoop, hgood]
  | cons b bs ih =>
    intro n hbad
    have hb : validChoice available b = false := hbad b (by simp)
    have harith : n + 1 + bs.length = n + (bs.length + 1) := by omega
    rw [List.cons_append, promptLoop, if_neg (by simp [hb]),
      ih (n + 1) (fun s hs => hbad s (by simp [hs])), harith]
    rfl

/-- C3: interactive disambiguation. When the selector reaches the prompt
(at least two tracks, none with an English language code), every
non-numeric or out-of-range input line is consumed by a re-prompt, and the
first valid numeral k (after stripping) yields the k-th track, one-based,
whatever input follows. The prompt count records one prompt per rejected
line plus the accepted one. -/
theorem c3_interactive_prompt (available : List CaptionTrack) (bad : List String)
    (good : String) (rest : List String)
    (hlen : 2 ≤ available.length)
    (hnoen : ∀ t ∈ available, isEnglish t = false)
    (hbad : ∀ s ∈ bad, validChoice available s = false)
    (hgood : validChoice available good = true) :
    ∃ hk : pyInt (pyStrip good) - 1 < available.length,
      selectTrack available (bad ++ good :: rest)
        = .chosen (available.get ⟨pyInt (pyStrip good) - 1, hk⟩) (bad.length + 1) := by
  have hrange : 1 ≤ pyInt (pyStrip good) ∧ pyInt (pyStrip good) ≤ available.length := by
    have := hgood
    simp only [validChoice, Bool.and_eq_true, decide_eq_true_eq] at this
    exact this.2
  have hk : pyInt (pyStrip good) - 1 < available.length := by omega
  refine ⟨hk, ?_⟩
  have hne : available.isEmpty = false := by
    cases available with
    | nil => simp at hlen
    | cons a l => simp
  have hM : available.find? isManualEnglish = none :=
    List.find?_eq_none.mpr
      (fun x hx => by simp [isManualEnglish_eq_false_of_isEnglish_eq_false (hnoen x hx)])
  have hE : available.find? isEnglish = none :=
    List.find?_eq_none.mpr (fun x hx => by simp [hnoen x hx])
  have h1 : ¬ available.length = 1 := by omega
  have hloop := promptLoop_append available good rest hgood bad 0
    (fun s hs => hbad s hs)
  have hget : available[pyInt (pyStrip good) - 1]?
      = some (available.get ⟨pyInt (pyStrip good) - 1, hk⟩) := by
    simp [List.getElem?_eq_getElem hk]
  rw [hget] at hloop
  simp [selectTrack, hne, deterministicSelect, hM, hE, h1, hloop]

/-- Concrete run of c3_interactive_prompt: two non-English tracks, inputs
"0", "abc", "5" are all re-prompted, then "2" selects the second track
after four prompts. -/
theorem c3_interactive_prompt_witness :
    selectTrack [⟨"F", "fr", false⟩, ⟨"G", "de", true⟩] ["0", "abc", "5", "2"]
      = .chosen ⟨"G", "de", true⟩ 4 := by
  obtain ⟨hk, h⟩ := c3_interactive_prompt [⟨"F", "fr", false⟩, ⟨"G", "de", true⟩]
    ["0", "abc", "5"] "2" [] (by decide) (by decide) (by decide) (by decide)
  exact h

/-! ### C2 -/

/-- C2 fails as stated: the code appends a space after every segment text
and then strips both ends, so segments "Foo " and "bar " flatten to
"Foo  bar" (two internal spaces), not "Foo bar". -/
theorem c2_flatten_counterexample :
    flattenSegments [⟨"Foo "⟩, ⟨"bar "⟩] ≠ "Foo bar"
    ∧ flattenSegments [⟨"Foo "⟩, ⟨"bar "⟩] = "Foo  bar" := by decide

theorem flatten_foldl_data (segments : List Segment) :
    ∀ acc : String,
      (segments.foldl (fun acc seg => acc ++ seg.text ++ " ") acc).data
        = acc.data ++ (segments.map (fun s => s.text.data ++ [' '])).join := by
  induction segments with
  | nil => intro acc; simp
  | cons s ss ih =>
    intro acc
    rw [List.foldl_cons, ih, String.data_append, String.data_append]
    simp

theorem intercalate_go_data :
    ∀ (l : List String) (acc : String),
      (String.intercalate.go acc " " l).data
        = acc.data ++ (l.map (fun b => ' ' :: b.data)).join := by
  intro l
  induction l with
  | nil => intro acc; simp [String.intercalate.go]
  | cons b bs ih =>
    intro acc
    rw [String.intercalate.go, ih, String.data_append, String.data_append]
    simp

theorem intercalate_sep_data (a : String) (l : List String) :
    (String.intercalate " " (a :: l)).data
      = a.data ++ (l.map (fun b => ' ' :: b.data)).join := by
  rw [String.intercalate]
  exact intercalate_go_data l a

theorem join_sep_shift (rest : List Segment) :
    ' ' :: (rest.map (fun q => q.text.data ++ [' '])).join
      = (rest.map (fun q => ' ' :: q.text.data)).join ++ [' '] := by
  induction rest with
  | nil => rfl
  | cons r rs ih =>
    simp only [List.map_cons, List.join_cons, List.cons_append, List.append_assoc]
    rw [← ih]
    simp

theorem pyStripChars_append_space (M : List Char)
    (hh : ∀ c, M.head? = some c → c.isWhitespace = false)
    (hl : ∀ c, M.getLast? = some c → c.isWhitespace = false)
    (hne : M ≠ []) :
    pyStripChars (M ++ [' ']) = M := by
  obtain ⟨c0, M', rfl⟩ : ∃ c0 M', M = c0 :: M' := by
    cases M with
    | nil => exact absurd rfl hne
    | cons a l => exact ⟨a, l, rfl⟩
  have h0 : c0.isWhitespace = false := hh c0 rfl
  obtain ⟨cl, hcl⟩ : ∃ cl, (c0 :: M').getLast? = some cl :=
    ⟨(c0 :: M').getLast (by simp), List.getLast?_eq_getLast _ (by simp)⟩
  have hclw : cl.isWhitespace = false := hl cl hcl
  have hrevh : (c0 :: M').reverse.head? = some cl := by
    rw [List.head?_reverse, hcl]
  obtain ⟨R, hR⟩ : ∃ R, (c0 :: M').reverse = cl :: R := by
    cases hx : (c0 :: M').reverse with
    | nil => rw [hx] at hrevh; simp at hrevh
    | cons r R =>
      rw [hx] at hrevh
      simp only [List.head?_cons, Option.some.injEq] at hrevh
      exact ⟨R, by rw [hrevh]⟩
  have hR2 : M'.reverse ++ [c0] = cl :: R := by
    rw [← List.reverse_cons]
    exact hR
  unfold pyStripChars
  rw [List.cons_append, List.dropWhile_cons]
  simp only [h0, Bool.false_eq_true, if_false]
  rw [← List.cons_append, List.reverse_append]
  simp only [List.reverse_cons, List.reverse_nil, List.nil_append, List.singleton_append]
  rw [hR2]
  have hdrop1 : List.dropWhile Char.isWhitespace (' ' :: cl :: R)
      = List.dropWhile Char.isWhitespace (cl :: R) := by
    rw [List.dropWhile_cons]
    simp
  have hdrop2 : List.dropWhile Char.isWhitespace (cl :: R) = cl :: R := by
    rw [List.dropWhile_cons]
    simp [hclw]
  rw [hdrop1, hdrop2, ← hR2]
  simp

theorem join_last_nonws :
    ∀ rest : List Segment, rest ≠ [] →
      (∀ seg ∈ rest, seg.text.data ≠ []) →
      (∀ seg ∈ rest, ∀ c, seg.text.data.getLast? = some c → c.isWhitespace = false) →
      ∃ cl, ((rest.map (fun r => ' ' :: r.text.data)).join).getLast? = some cl
        ∧ cl.isWhitespace = false := by
  intro rest
  induction rest with
  | nil => intro h; exact absurd rfl h
  | cons r rs ih =>
    intro _ hne hlast
    cases hrs : rs with
    | nil =>
      subst hrs
      have hT : r.text.data ≠ [] := hne r (by simp)
      obtain ⟨cl, hcl⟩ : ∃ cl, r.text.data.getLast? = some cl :=
        ⟨r.text.data.getLast hT, List.getLast?_eq_getLast _ hT⟩
      refine ⟨cl, ?_, hlast r (by simp) cl hcl⟩
      have hsplit : (([r].map (fun q => ' ' :: q.text.data)).join)
          = [' '] ++ r.text.data := by simp
      rw [hsplit, List.getLast?_append_of_ne_nil _ hT, hcl]
    | cons r1 rs1 =>
      subst hrs
      have hjne : (((r1 :: rs1).map (fun q => ' ' :: q.text.data)).join) ≠ [] := by
        simp
      obtain ⟨cl, hcl, hw⟩ := ih (by simp)
        (fun seg hseg => hne seg (by simp [hseg]))
        (fun seg hseg => hlast seg (by simp [hseg]))
      refine ⟨cl, ?_, hw⟩
      have hsplit : (((r :: r1 :: rs1).map (fun q => ' ' :: q.text.data)).join)
          = (' ' :: r.text.data) ++ ((r1 :: rs1).map (fun q => ' ' :: q.text.data)).join := by
        simp
      rw [hsplit, List.getLast?_append_of_ne_nil _ hjne, hcl]

/-- C2 (amended): the fallback result is each segment text concatenated
with a trailing space and the whole stripped of leading and trailing
whitespace. When every segment text is nonempty and has no leading or
trailing whitespace of its own, this equals the texts space-joined in
sequence order; segment texts that end in whitespace keep it internally,
so "Foo " and "bar " flatten to "Foo  bar", not "Foo bar". -/
theorem c2_fallback_flattening (segments : List Segment)
    (hne : ∀ seg ∈ segments, seg.text.data ≠ [])
    (hhead : ∀ seg ∈ segments, ∀ c, seg.text.data.head? = some c → c.isWhitespace = false)
    (hlast : ∀ seg ∈ segments, ∀ c, seg.text.data.getLast? = some c → c.isWhitespace = false) :
    flattenSegments segments = String.intercalate " " (segments.map Segment.text) := by
  cases segments with
  | nil => rfl
  | cons s rest =>
    apply String.ext
    have hL : (flattenSegments (s :: rest)).data
        = pyStripChars (((s :: rest).map (fun q => q.text.data ++ [' '])).join) := by
      have hfold := flatten_foldl_data (s :: rest) ""
      show pyStripChars
          ((List.foldl (fun acc seg => acc ++ seg.text ++ " ") "" (s :: rest)).data) = _
      rw [hfold]
      rfl
    have hR : (String.intercalate " " ((s :: rest).map Segment.text)).data
        = s.text.data ++ ((rest.map (fun r => ' ' :: r.text.data)).join) := by
      rw [List.map_cons, intercalate_sep_data, List.map_map]
      rfl
    rw [hL, hR]
    have hjoin : (((s :: rest).map (fun q => q.text.data ++ [' '])).join)
        = (s.text.data ++ ((rest.map (fun r => ' ' :: r.text.data)).join)) ++ [' '] := by
      simp only [List.map_cons, List.join_cons]
      rw [List.append_assoc, List.append_assoc]
      congr 1
      simpa using join_sep_shift rest
    rw [hjoin]
    have hTne : s.text.data ≠ [] := hne s (by simp)
    apply pyStripChars_append_space
    · intro c hc
      rw [List.head?_append_of_ne_nil _ hTne] at hc
      exact hhead s (by simp) c hc
    · intro c hc
      cases hrest : rest with
      | nil =>
        subst hrest
        simp only [List.map_nil, List.join_nil, List.append_nil] at hc
        exact hlast s (by simp) c hc
      | cons r1 rs1 =>
        have hjne : ((rest.map (fun q => ' ' :: q.text.data)).join) ≠ [] := by
          subst hrest
          simp
        rw [List.getLast?_append_of_ne_nil _ hjne] at hc
        obtain ⟨cl, hcl, hw⟩ := join_last_nonws rest (by simp [hrest])
          (fun seg hseg => hne seg (by simp [hseg]))
          (fun seg hseg => hlast seg (by simp [hseg]))
        rw [hcl] at hc
        cases hc
        exact hw
    · simp [hTne]

/-- Concrete run of c2_fallback_flattening on whitespace-free texts. -/
theorem c2_fallback_flattening_witness :
    flattenSegments [⟨"Foo"⟩, ⟨"bar"⟩]
      = String.intercalate " " (([⟨"Foo"⟩, ⟨"bar"⟩] : List Segment).map Segment.text) :=
  c2_fallback_flattening [⟨"Foo"⟩, ⟨"bar"⟩] (by decide) (by decide) (by decide)

/-! ### C4 -/

/-- C4: captions-failure downgrade. TranscriptsDisabled, NoTranscriptFound,
any other exception and an empty track list all make the captions stage
return None (no exception escapes it), the pipeline result is then the
same in all four cases, and with a None captions result extract_text runs
the fallback: the fallback text becomes the pipeline output and a fallback
failure propagates. -/
theorem c4_captions_failure_downgrade
    (fetch : CaptionTrack → Except Unit (List TimedEntry)) (inputs : List String)
    (fb : Except Unit String) :
    (get_official_captions .transcriptsDisabled fetch inputs = .ret none
      ∧ get_official_captions .noTranscriptFound fetch inputs = .ret none
      ∧ get_official_captions .otherError fetch inputs = .ret none
      ∧ get_official_captions (.tracks []) fetch inputs = .ret none)
    ∧ (extract_text (get_official_captions .transcriptsDisabled fetch inputs) fb
        = extract_text (get_official_captions (.tracks []) fetch inputs) fb
      ∧ extract_text (get_official_captions .noTranscriptFound fetch inputs) fb
        = extract_text (get_official_captions (.tracks []) fetch inputs) fb
      ∧ extract_text (get_official_captions .otherError fetch inputs) fb
        = extract_text (get_official_captions (.tracks []) fetch inputs) fb)
    ∧ (∀ s, extract_text (CapResult.ret none) (Except.ok s) = PipeResult.text s)
    ∧ extract_text (CapResult.ret none) (Except.error ()) = PipeResult.raised :=
  ⟨⟨rfl, rfl, rfl, rfl⟩, ⟨rfl, rfl, rfl⟩, fun _ => rfl, rfl⟩

/-! ### C6 -/

/-- C6: caption-path flattening. Whenever the selection logic chooses a
track and fetching it yields a list of timed entries, the captions stage
returns the entry texts joined with single spaces in sequence order. -/
theorem c6_caption_flattening (ts : List CaptionTrack) (inputs : List String)
    (fetch : CaptionTrack → Except Unit (List TimedEntry))
    (t : CaptionTrack) (n : Nat) (entries : List TimedEntry)
    (hsel : selectTrack ts inputs = .chosen t n)
    (hfetch : fetch t = .ok entries) :
    get_official_captions (.tracks ts) fetch inputs
      = .ret (some (String.intercalate " " (entries.map TimedEntry.text))) := by
  simp [get_official_captions, hsel, hfetch]

/-- Concrete run of c6_caption_flattening: one manual English track whose
fetch yields entries "Hello" and "world" produces exactly "Hello world". -/
theorem c6_caption_flattening_witness :
    get_official_captions (.tracks [⟨"English", "en", false⟩])
      (fun _ => .ok [⟨"Hello"⟩, ⟨"world"⟩]) [] = .ret (some "Hello world") := by
  have h := c6_caption_flattening [⟨"English", "en", false⟩] []
    (fun _ => .ok [⟨"Hello"⟩, ⟨"world"⟩]) ⟨"English", "en", false⟩ 0
    [⟨"Hello"⟩, ⟨"world"⟩] (by decide) rfl
  exact h

/-! ### C7 -/

theorem fsRead_fsWrite : ∀ (fs : List (String × String)) (path content : String),
    fsRead (fsWrite fs path content) path = some content
  | [], path, content => by simp [fsWrite, fsRead]
  | (p, c) :: rest, path, content => by
    have ih := fsRead_fsWrite rest path content
    by_cases h : p = path
    · subst h
      simp [fsWrite, fsRead]
    · simp only [fsWrite, if_neg h]
      simp only [fsRead] at ih ⊢
      rw [List.find?_cons_of_neg _ (by simpa using h)]
      exact ih

theorem fsWrite_fsWrite : ∀ (fs : List (String × String)) (path content : String),
    fsWrite (fsWrite fs path content) path content = fsWrite fs path content
  | [], path, content => by simp [fsWrite]
  | (p, c) :: rest, path, content => by
    by_cases h : p = path
    · simp [fsWrite, h]
    · simp [fsWrite, h, fsWrite_fsWrite rest path content]

/-- C7: empty-transcript atomicity. A non-empty produced transcript is
persisted at output/<id>.txt (and readable back verbatim); an empty
transcript makes the run exit with failure and the filesystem untouched,
so no empty or half-written output file exists afterwards. -/
theorem c7_empty_transcript_atomicity (fs : List (String × String)) (vid s : String) :
    (s ≠ "" → mainRun fs vid (.text s) = .exitSuccess (save_to_file fs vid s)
      ∧ fsRead (save_to_file fs vid s) (outputPath vid) = some s)
    ∧ (s = "" → mainRun fs vid (.text s) = .exitFailure fs) := by
  constructor
  · intro h
    exact ⟨by simp [mainRun, h], fsRead_fsWrite fs (outputPath vid) s⟩
  · intro h
    simp [mainRun, h]

/-- Concrete run of c7_empty_transcript_atomicity on a non-empty text. -/
theorem c7_empty_transcript_atomicity_witness :
    mainRun [] "vid" (.text "hello") = .exitSuccess (save_to_file [] "vid" "hello")
    ∧ fsRead (save_to_file [] "vid" "hello") (outputPath "vid") = some "hello" :=
  (c7_empty_transcript_atomicity [] "vid" "hello").1 (by decide)

/-! ### C9 -/

/-- C9: persistence idempotence. Writing the same transcript for the same
identifier twice leaves the filesystem exactly as one write does, and the
file holds exactly that text (overwrite, no accumulation). -/
theorem c9_persistence_idempotent (fs : List (String × String)) (vid s : String) :
    save_to_file (save_to_file fs vid s) vid s = save_to_file fs vid s
    ∧ fsRead (save_to_file fs vid s) (outputPath vid) = some s :=
  ⟨fsWrite_fsWrite fs (outputPath vid) s, fsRead_fsWrite fs (outputPath vid) s⟩

/-! ### C10 -/

/-- C10: a captions result that is the empty string is not returned:
extract_text treats it exactly like None and runs the fallback (whose
text becomes the output and whose failure propagates); in particular a
selected track fetching zero entries flattens to "" and behaves like the
no-captions case; a non-empty captions result is returned as-is. -/
theorem c10_empty_captions_fallback (fb : Except Unit String)
    (ts : List CaptionTrack) (inputs : List String)
    (fetch : CaptionTrack → Except Unit (List TimedEntry))
    (t : CaptionTrack) (n : Nat) (s : String) :
    (extract_text (CapResult.ret (some "")) (Except.ok s) = PipeResult.text s)
    ∧ (extract_text (CapResult.ret (some "")) (Except.error ()) = PipeResult.raised)
    ∧ (selectTrack ts inputs = .chosen t n → fetch t = .ok [] →
        extract_text (get_official_captions (.tracks ts) fetch inputs) fb
          = extract_text (CapResult.ret none) fb)
    ∧ (s ≠ "" → extract_text (CapResult.ret (some s)) fb = PipeResult.text s) := by
  refine ⟨rfl, rfl, ?_, ?_⟩
  · intro hsel hfetch
    have hcap : get_official_captions (.tracks ts) fetch inputs
        = .ret (some "") := by
      simp [get_official_captions, hsel, hfetch]
      rfl
    rw [hcap]
    rfl
  · intro h
    simp [extract_text, pyTruthyOpt, h]

/-! ### C8 -/

/-- C8 fails on the code: _download_audio allocates a temp directory with
mkdtemp and no code path ever removes it; after _transcribe_via_whisper
the directory is still allocated whether download and transcription
succeeded or failed. -/
theorem c8_temp_dir_not_reclaimed (st : TempFs) (dl : DownloadOutcome)
    (stt : Except Unit (List Segment)) :
    (transcribe_via_whisper st dl stt).1.allocated = st.allocated ++ [st.counter]
    ∧ st.counter ∈ (transcribe_via_whisper st dl stt).1.allocated := by
  cases dl <;> cases stt <;> simp [transcribe_via_whisper, download_audio]

/-! ### C5 -/

theorem parse_qs_v_ne_empty {q : List (String × String)} {v : String}
    (h : parse_qs_v q = some v) : v ≠ "" := by
  unfold parse_qs_v at h
  have hv : v ∈ (q.filter (fun p => decide (p.1 = "v" ∧ p.2 ≠ ""))).map Prod.snd :=
    List.mem_of_mem_head? h
  obtain ⟨p, hp, hsnd⟩ := List.mem_map.mp hv
  have hprop := (List.mem_filter.mp hp).2
  simp only [decide_eq_true_eq] at hprop
  rw [← hsnd]
  exact hprop.2

/-- C5: identifier parser contract. On hosts youtube.com and
www.youtube.com the parser returns the (first nonempty) v query
parameter, and fails when there is none; on host youtu.be it returns the
path stripped of its leading slash, and fails when nothing remains; every
other host fails with the invalid-URL error. -/
theorem c5_identifier_contract (u : ParsedUrl) :
    ((u.hostname = some "www.youtube.com" ∨ u.hostname = some "youtube.com") →
      (∀ v, parse_qs_v u.query = some v → extract_video_id u = .ok v)
      ∧ (parse_qs_v u.query = none →
          extract_video_id u = .error "Could not extract video ID from watch URL"))
    ∧ (u.hostname = some "youtu.be" →
      (∀ vid, u.path = "/" ++ vid → vid.data.head? ≠ some '/' → vid ≠ "" →
        extract_video_id u = .ok vid)
      ∧ (pyLStripSlash u.path = "" →
          extract_video_id u = .error "Could not extract video ID from short URL"))
    ∧ (u.hostname ≠ some "www.youtube.com" → u.hostname ≠ some "youtube.com" →
      u.hostname ≠ some "youtu.be" →
      extract_video_id u = .error "Invalid YouTube URL format") := by
  refine ⟨?_, ?_, ?_⟩
  · intro hyt
    constructor
    · intro v hv
      have hne : v ≠ "" := parse_qs_v_ne_empty hv
      simp [extract_video_id, hyt, hv, pyTruthyOpt, hne]
    · intro hv
      simp [extract_video_id, hyt, hv, pyTruthyOpt]
  · intro hbe
    have h1 : ¬(u.hostname = some "www.youtube.com"
        ∨ u.hostname = some "youtube.com") := by
      rw [hbe]
      rintro (h | h) <;> exact absurd h (by decide)
    constructor
    · intro vid hpath hhead hne
      have hstrip : pyLStripSlash u.path = vid := by
        rw [hpath]
        obtain ⟨c, cs, hv⟩ : ∃ c cs, vid.data = c :: cs := by
          cases hv : vid.data with
          | nil => exact absurd (String.ext (by rw [hv])) hne
          | cons c cs => exact ⟨c, cs, rfl⟩
        have hc : ¬(c = '/') := by
          intro hc
          apply hhead
          rw [hv, hc]
          rfl
        have hdata : ("/" ++ vid).data = '/' :: c :: cs := by
          rw [String.data_append, hv]
          rfl
        unfold pyLStripSlash
        rw [hdata, List.dropWhile_cons, if_pos (by decide), List.dropWhile_cons,
          if_neg (by simp [hc]), ← hv]
      simp [extract_video_id, h1, hbe, hstrip, hne]
    · intro hempty
      simp [extract_video_id, h1, hbe, hempty]
  · intro h1 h2 h3
    have hno : ¬(u.hostname = some "www.youtube.com"
        ∨ u.hostname = some "youtube.com") := by
      rintro (h | h)
      · exact h1 h
      · exact h2 h
    simp [extract_video_id, hno, h3]

/-- Concrete run of c5_identifier_contract on a watch URL. -/
theorem c5_identifier_contract_witness :
    extract_video_id ⟨some "www.youtube.com", "/watch", [("v", "dQw4w9WgXcQ")]⟩
      = .ok "dQw4w9WgXcQ" :=
  ((c5_identifier_contract ⟨some "www.youtube.com", "/watch", [("v", "dQw4w9WgXcQ")]⟩).1
    (Or.inl rfl)).1 "dQw4w9WgXcQ" rfl

/-- Concrete run of c10_empty_captions_fallback: a selected English track
fetching zero entries makes the pipeline behave exactly like the
no-captions case. -/
theorem c10_empty_captions_fallback_witness :
    extract_text (get_official_captions (.tracks [⟨"English", "en", false⟩])
        (fun _ => .ok []) []) (Except.ok "whisper text")
      = extract_text (CapResult.ret none) (Except.ok "whisper text") :=
  (c10_empty_captions_fallback (Except.ok "whisper text")
    [⟨"English", "en", false⟩] [] (fun _ => .ok []) ⟨"English", "en", false⟩ 0
    "x").2.2.1 (by decide) rfl
